import Mathlib

/-!
Verification of the `nytsb` terminal Spelling Bee game (Python sources
`nytsb.py`, `db.py`, `ui.py`) against its design specification.

Words are modelled as lists of (already upper-cased) characters, the
sqlite tables as lists of rows, and the interactive `main` loop of
`nytsb.py` as a step function over an explicit session state.  Machine
details that cannot influence the verified claims (terminal styling,
the random shuffle of the hive display order, the random choice among
the three success flavor texts) are noted in comments where they are
abstracted.
-/

/-- A word: a list of upper-case characters (Python `str`, one element
per character). -/
abbrev Word := List Char

/-- The fixed rank ladder `RANKS` of `nytsb.py` (lines 26-37): pairs of
rank name and minimum percentage of the maximum score. -/
def RANKS : List (String × Nat) :=
  [("Beginner", 0),
   ("Good Start", 2),
   ("Moving Up", 5),
   ("Good", 8),
   ("Solid", 15),
   ("Nice", 25),
   ("Great", 40),
   ("Amazing", 50),
   ("Genius", 70),
   ("Queen Bee", 100)]

/-- The immutable puzzle data held by `SpellingBee.__init__`
(`nytsb.py` lines 40-61): center letter, the valid letters (center
plus outer), the answer list and the declared pangram list, all
upper-cased.  The mutable shuffle order of `self.valid` is display
state only: `random.shuffle` permutes the list in place, so the
membership tests used by classification are unaffected; we therefore
keep `valid` fixed and treat the display order separately. -/
structure SpellingBee where
  center : Char
  valid : List Char
  answers : List Word
  pangrams : List Word
deriving DecidableEq

/-- `calculate_score` (`nytsb.py` lines 80-91): a running total over the
word list; 1 point for a 4-letter word, `len(w)` points for a longer
word, plus 7 points whenever `len(set(w)) == 7`. -/
def calculate_score (word_list : List Word) : Nat :=
  word_list.foldl
    (fun score w =>
      let score :=
        if w.length = 4 then score + 1
        else if w.length > 4 then score + w.length
        else score
      if w.dedup.length = 7 then score + 7 else score)
    0

/-- `self.max_score = calculate_score(self.answers)`
(`nytsb.py` line 61). -/
def SpellingBee.max_score (bee : SpellingBee) : Nat :=
  calculate_score bee.answers

/-- Modelled from the spec (Scoring Engine, §4.1): the per-word point
contribution — 1 point if the length is exactly 4, the length if it is
greater than 4, 0 otherwise, plus a flat 7-point bonus when the word
has exactly 7 distinct characters.  Used as the specification side of
the refinement claim about `calculate_score`. -/
def wordPoints (w : Word) : Nat :=
  (if w.length = 4 then 1 else if w.length > 4 then w.length else 0) +
    (if w.dedup.length = 7 then 7 else 0)

lemma calculate_score_body (n : Nat) (w : Word) :
    (let score :=
        if w.length = 4 then n + 1
        else if w.length > 4 then n + w.length
        else n
     if w.dedup.length = 7 then score + 7 else score) = n + wordPoints w := by
  simp only [wordPoints]
  split_ifs <;> omega

lemma calculate_score_foldl (ws : List Word) (n : Nat) :
    ws.foldl
      (fun score w =>
        let score :=
          if w.length = 4 then score + 1
          else if w.length > 4 then score + w.length
          else score
        if w.dedup.length = 7 then score + 7 else score)
      n = n + (ws.map wordPoints).sum := by
  induction ws generalizing n with
  | nil => simp
  | cons w ws ih =>
      simp only [List.foldl_cons, List.map_cons, List.sum_cons]
      rw [ih, calculate_score_body]
      omega

/-- C1: the score of a word list is the sum over the words of 1 point
for length exactly 4, `length` points for length greater than 4 and 0
otherwise, plus 7 points for each word with exactly 7 distinct
characters; and the puzzle's `max_score` is this same scoring function
applied to the full answer list. -/
theorem calculate_score_spec :
    (∀ ws : List Word, calculate_score ws = (ws.map wordPoints).sum) ∧
    (∀ bee : SpellingBee,
      bee.max_score = (bee.answers.map wordPoints).sum) := by
  have h : ∀ ws : List Word, calculate_score ws = (ws.map wordPoints).sum := by
    intro ws
    simpa using calculate_score_foldl ws 0
  exact ⟨h, fun bee => h bee.answers⟩

/-! ## The persisted guess table

`init_db` creates table `guess` with a `UNIQUE(word, game_id)`
constraint.  A row is one persisted guess. -/

/-- One row of the `guess` table: the game it belongs to, the guessed
word, and whether the guess was correct.  (The autoincrement `id` and
`creation_date` columns carry no information the claims mention; row
order in the list stands for insertion/rowid order.) -/
structure GuessRow where
  gameId : Nat
  word : Word
  correct : Bool
deriving DecidableEq

/-- A `guess` table state: rows in insertion (rowid) order. -/
abbrev GuessDB := List GuessRow

/-- Whether a row conflicts with the `UNIQUE(word, game_id)` key of a
new guess for game `g` and word `w`. -/
def rowConflict (g : Nat) (w : Word) (r : GuessRow) : Bool :=
  r.gameId == g && r.word == w

/-- `record_guess` of `db.py` (lines 90-102): `REPLACE INTO guess` —
under the `UNIQUE(word, game_id)` constraint this deletes any
conflicting row and inserts the new row (with a fresh rowid, hence at
the end). -/
def record_guess (w : Word) (correct : Bool) (game_id : Nat)
    (db : GuessDB) : GuessDB :=
  db.filter (fun r => !rowConflict game_id w r) ++ [⟨game_id, w, correct⟩]

/-- `record_guess` of `nytsb.py` (lines 176-189): plain `INSERT INTO
guess` — under the `UNIQUE(word, game_id)` constraint a conflicting
insert raises `sqlite3.IntegrityError`, modelled as `none`. -/
def record_guess_insert (w : Word) (correct : Bool) (game_id : Nat)
    (db : GuessDB) : Option GuessDB :=
  if db.any (rowConflict game_id w) then none
  else some (db ++ [⟨game_id, w, correct⟩])

/-- `resumed_game` (`db.py` lines 60-87, identically `nytsb.py` lines
146-173): the words of the game's rows with `correct = 1`, then the
words of its rows with `correct = 0`, each in rowid order. -/
def resumed_game (game_id : Nat) (db : GuessDB) : List Word × List Word :=
  ((db.filter (fun r => r.gameId == game_id && r.correct)).map GuessRow.word,
   (db.filter (fun r => r.gameId == game_id && !r.correct)).map GuessRow.word)

/-! ## The `game` table -/

/-- A row of the `game` table: `(id, game_date)`, the date modelled as
a natural number key.  `UNIQUE(game_date)` is the schema constraint. -/
abbrev GameDB := List (Nat × Nat)

/-- `get_or_create_game` (`db.py` lines 41-57, identically `nytsb.py`
lines 127-143): select the row with today's date; if present return
its id, otherwise insert a new row (autoincrement id: one more than
the largest id in use) and return `lastrowid`. -/
def get_or_create_game (today : Nat) (games : GameDB) : Nat × GameDB :=
  match games.find? (fun r => r.2 == today) with
  | some r => (r.1, games)
  | none =>
      let nid := (games.foldl (fun a r => max a r.1) 0) + 1
      (nid, games ++ [(nid, today)])

/-! ## Guess classification

The error-message chain of `nytsb.py` `main` (lines 321-328), shared
verbatim by `Screen.on_incorrect_guess` (`ui.py` lines 262-272).  The
center-letter test `bee.center not in word` is Python substring search
with a one-character needle, i.e. character membership. -/

/-- The rejection message chain: length, then letter validity, then
center letter, then the word-list fallback. -/
def on_incorrect_guess (bee : SpellingBee) (w : Word) : String :=
  if w.length < 4 then "Too short"
  else if ∃ l ∈ w, l ∉ bee.valid then "Bad letters"
  else if bee.center ∉ w then "Missing center letter"
  else "Not in word list"

/-! ## The session loop

`main` (`nytsb.py` lines 191-355).  The session state is the mutable
data the loop touches: the two guess lists loaded by `resumed_game`,
the in-progress word buffer, the score text (a number rendered as
text), the transient message, and the database connection's `guess`
table.  Key events are modelled after they have been decoded from the
raw character (spacebar, `/`, Enter, backspace, alphabetic letter,
anything else); the shuffle's new display order and the random choice
among the three success flavor texts are irrelevant to every verified
claim and are abstracted (the flavor text is fixed to one element of
the pool). -/

structure SessionState where
  validGuesses : List Word
  invalidGuesses : List Word
  word : Word
  score : Nat
  message : String
  db : GuessDB
deriving DecidableEq

inductive Event where
  /-- spacebar: reshuffle the hive display order -/
  | shuffle
  /-- `/`: show the help panel and `continue` -/
  | helpToggle
  /-- Enter: submit the word buffer -/
  | submit
  /-- backspace/delete: drop the last buffered character -/
  | backspace
  /-- an alphabetic key, already upper-cased -/
  | letter (c : Char)
  /-- any other key: `continue` -/
  | other
deriving DecidableEq

/-- The Enter branch of `main` (lines 296-333).  `Already found` if the
buffer is in `valid_guesses + invalid_guesses`; else if it is an
answer, append it to `valid_guesses`, persist `(word, True)` and
recompute the score text from `calculate_score(valid_guesses)`; else
persist `(word, False)` — `record_guess` here is `nytsb.py`'s plain
`INSERT`, whose `IntegrityError` (`none`) aborts the loop — and set
the message from the rejection chain.  Every branch ends with
`word.truncate(0)`. -/
def submitWord (bee : SpellingBee) (game_id : Nat) (s : SessionState) :
    Option SessionState :=
  if s.word ∈ s.validGuesses ++ s.invalidGuesses then
    some { s with message := "Already found", word := [] }
  else if s.word ∈ bee.answers then
    match record_guess_insert s.word true game_id s.db with
    | none => none
    | some db' =>
        let valid' := s.validGuesses ++ [s.word]
        some { s with
          validGuesses := valid'
          db := db'
          score := calculate_score valid'
          message := if s.word ∈ bee.pangrams then "Pangram! :tada:" else "Nice!"
          word := [] }
  else
    match record_guess_insert s.word false game_id s.db with
    | none => none
    | some db' =>
        some { s with
          db := db'
          message := on_incorrect_guess bee s.word
          word := [] }

/-- One iteration of the input loop (lines 282-355): the message is
cleared (`message.truncate(0)`, line 285) before the event is
dispatched. -/
def step (bee : SpellingBee) (game_id : Nat) (e : Event)
    (s : SessionState) : Option SessionState :=
  let s := { s with message := "" }
  match e with
  | .shuffle => some s
  | .helpToggle => some s
  | .submit => submitWord bee game_id s
  | .backspace => some { s with word := s.word.dropLast }
  | .letter c => some { s with word := s.word ++ [c] }
  | .other => some s

/-- Running the loop over a list of events; `none` once any iteration
raises. -/
def runSession (bee : SpellingBee) (game_id : Nat) :
    List Event → SessionState → Option SessionState
  | [], s => some s
  | e :: es, s =>
      match step bee game_id e s with
      | none => none
      | some s' => runSession bee game_id es s'

/-- Session start-up (`main` lines 196-244): guesses come from
`resumed_game`, the word buffer and message are empty, and the score
text is initialized to `calculate_score(valid_guesses)` (line 244). -/
def initState (game_id : Nat) (db : GuessDB) : SessionState :=
  { validGuesses := (resumed_game game_id db).1
    invalidGuesses := (resumed_game game_id db).2
    word := []
    score := calculate_score (resumed_game game_id db).1
    message := ""
    db := db }

/-! ## Claim C2: classification precedence -/

/-- C2: a submitted word shorter than 4 letters is reported "Too
short" even when it also contains letters outside the puzzle's valid
set — the length check precedes the invalid-letter check, which
precedes the missing-center check, which precedes the not-in-word-list
fallback. -/
theorem on_incorrect_guess_precedence (bee : SpellingBee) (w : Word) :
    (w.length < 4 → on_incorrect_guess bee w = "Too short") ∧
    (¬w.length < 4 → (∃ l ∈ w, l ∉ bee.valid) →
      on_incorrect_guess bee w = "Bad letters") ∧
    (¬w.length < 4 → (∀ l ∈ w, l ∈ bee.valid) → bee.center ∉ w →
      on_incorrect_guess bee w = "Missing center letter") ∧
    (¬w.length < 4 → (∀ l ∈ w, l ∈ bee.valid) → bee.center ∈ w →
      on_incorrect_guess bee w = "Not in word list") := by
  unfold on_incorrect_guess
  refine ⟨?_, ?_, ?_, ?_⟩ <;> intros <;> split_ifs <;> first | rfl | tauto

/-- Witness for C2: the word XYZ (3 letters, all outside the valid set
A-G) is reported "Too short". -/
theorem on_incorrect_guess_precedence_witness :
    on_incorrect_guess
        ⟨'A', ['A', 'B', 'C', 'D', 'E', 'F', 'G'], [], []⟩
        ['X', 'Y', 'Z'] = "Too short" :=
  (on_incorrect_guess_precedence
      ⟨'A', ['A', 'B', 'C', 'D', 'E', 'F', 'G'], [], []⟩
      ['X', 'Y', 'Z']).1 (by decide)

/-! ## Claim C7: resubmitting an accepted word -/

/-- C7: submitting a word already in `valid_guesses` answers "Already
found" and leaves the found words, the score and the guess table
untouched. -/
theorem already_found_changes_nothing (bee : SpellingBee) (game_id : Nat)
    (s : SessionState) (h : s.word ∈ s.validGuesses) :
    ∃ s', step bee game_id Event.submit s = some s' ∧
      s'.message = "Already found" ∧
      s'.validGuesses = s.validGuesses ∧
      s'.score = s.score ∧
      s'.db = s.db := by
  have hmem : s.word ∈ s.validGuesses ++ s.invalidGuesses :=
    List.mem_append.mpr (Or.inl h)
  refine ⟨{ s with message := "Already found", word := [] },
    ?_, rfl, rfl, rfl, rfl⟩
  simp only [step, submitWord]
  split_ifs
  rfl

/-- Witness for C7: resubmitting the already-found word ABCD. -/
theorem already_found_changes_nothing_witness :
    ∃ s', step ⟨'A', ['A', 'B', 'C', 'D', 'E', 'F', 'G'],
        [['A', 'B', 'C', 'D']], []⟩ 1 Event.submit
        ⟨[['A', 'B', 'C', 'D']], [], ['A', 'B', 'C', 'D'], 1, "",
          [⟨1, ['A', 'B', 'C', 'D'], true⟩]⟩ = some s' ∧
      s'.message = "Already found" ∧
      s'.validGuesses = [['A', 'B', 'C', 'D']] ∧
      s'.score = 1 ∧
      s'.db = [⟨1, ['A', 'B', 'C', 'D'], true⟩] :=
  already_found_changes_nothing
    ⟨'A', ['A', 'B', 'C', 'D', 'E', 'F', 'G'], [['A', 'B', 'C', 'D']], []⟩ 1
    ⟨[['A', 'B', 'C', 'D']], [], ['A', 'B', 'C', 'D'], 1, "",
      [⟨1, ['A', 'B', 'C', 'D'], true⟩]⟩ (by decide)

/-! ## Claim C6: the session invariant -/

/-- The session invariant: every found word is an answer, the found
words are duplicate-free, and the displayed score is
`calculate_score(valid_guesses)`. -/
def sessionInv (bee : SpellingBee) (s : SessionState) : Prop :=
  (∀ w ∈ s.validGuesses, w ∈ bee.answers) ∧
    s.validGuesses.Nodup ∧
    s.score = calculate_score s.validGuesses

instance (bee : SpellingBee) (s : SessionState) :
    Decidable (sessionInv bee s) := by
  unfold sessionInv; infer_instance

lemma submitWord_preserves_inv (bee : SpellingBee) (game_id : Nat)
    {s s' : SessionState} (hinv : sessionInv bee s)
    (hstep : submitWord bee game_id s = some s') : sessionInv bee s' := by
  obtain ⟨hans, hnodup, hscore⟩ := hinv
  unfold submitWord at hstep
  set msg := if s.word ∈ bee.pangrams then "Pangram! :tada:" else "Nice!"
    with hmsg
  split_ifs at hstep with h1 h2
  · obtain rfl := Option.some.inj hstep
    exact ⟨hans, hnodup, hscore⟩
  · rcases hdb : record_guess_insert s.word true game_id s.db with _ | db' <;>
      rw [hdb] at hstep
    · exact absurd hstep (by simp)
    · obtain rfl := Option.some.inj hstep
      have hnot : s.word ∉ s.validGuesses := fun hm =>
        h1 (List.mem_append.mpr (Or.inl hm))
      refine ⟨?_, ?_, rfl⟩
      · intro w hw
        rcases List.mem_append.mp hw with hw | hw
        · exact hans w hw
        · rw [List.mem_singleton.mp hw]
          exact h2
      · simp [List.nodup_append, hnodup, hnot]
  · rcases hdb : record_guess_insert s.word false game_id s.db with _ | db' <;>
      rw [hdb] at hstep
    · exact absurd hstep (by simp)
    · obtain rfl := Option.some.inj hstep
      exact ⟨hans, hnodup, hscore⟩

/-- C6: every input event preserves the session invariant — found
words stay inside the answer list and duplicate-free, and the
displayed score is always `calculate_score` of the found words (it is
recomputed, never incremented independently). -/
theorem step_preserves_session_inv (bee : SpellingBee) (game_id : Nat)
    (e : Event) (s s' : SessionState) (hinv : sessionInv bee s)
    (hstep : step bee game_id e s = some s') : sessionInv bee s' := by
  obtain ⟨hans, hnodup, hscore⟩ := hinv
  cases e with
  | submit => exact submitWord_preserves_inv bee game_id ⟨hans, hnodup, hscore⟩ hstep
  | shuffle =>
      obtain rfl := Option.some.inj hstep
      exact ⟨hans, hnodup, hscore⟩
  | helpToggle =>
      obtain rfl := Option.some.inj hstep
      exact ⟨hans, hnodup, hscore⟩
  | backspace =>
      obtain rfl := Option.some.inj hstep
      exact ⟨hans, hnodup, hscore⟩
  | letter c =>
      obtain rfl := Option.some.inj hstep
      exact ⟨hans, hnodup, hscore⟩
  | other =>
      obtain rfl := Option.some.inj hstep
      exact ⟨hans, hnodup, hscore⟩

/-- Witness for C6: accepting the answer ABCD from an empty session
preserves the invariant. -/
theorem step_preserves_session_inv_witness :
    sessionInv ⟨'A', ['A', 'B', 'C', 'D', 'E', 'F', 'G'],
        [['A', 'B', 'C', 'D']], []⟩
      ⟨[['A', 'B', 'C', 'D']], [], [], 1, "Nice!",
        [⟨1, ['A', 'B', 'C', 'D'], true⟩]⟩ :=
  step_preserves_session_inv
    ⟨'A', ['A', 'B', 'C', 'D', 'E', 'F', 'G'], [['A', 'B', 'C', 'D']], []⟩ 1
    Event.submit
    ⟨[], [], ['A', 'B', 'C', 'D'], 0, "", []⟩
    ⟨[['A', 'B', 'C', 'D']], [], [], 1, "Nice!",
      [⟨1, ['A', 'B', 'C', 'D'], true⟩]⟩
    (by decide) (by decide)

/-! ## Claim C3: resubmitting a rejected word in the same session

`main` never appends to `invalid_guesses` after a rejection (line 319
records the guess but only the list loaded by `resumed_game` is
consulted at line 297), and `nytsb.py`'s `record_guess` is a plain
`INSERT` against `UNIQUE(word, game_id)`.  A second in-session
submission of a rejected word therefore reaches the insert again and
raises `sqlite3.IntegrityError` instead of answering "Already
found". -/

/-- C3 evidence: in a fresh session, typing XYZ and submitting yields
"Too short" and persists `(XYZ, false)` once; typing XYZ and
submitting a second time crashes the loop (the model's `none`) instead
of classifying the word as already found. -/
theorem resubmitted_rejection_raises :
    (runSession ⟨'A', ['A', 'B', 'C', 'D', 'E', 'F', 'G'],
        [['A', 'B', 'C', 'D']], []⟩ 1
        [Event.letter 'X', Event.letter 'Y', Event.letter 'Z', Event.submit]
        (initState 1 []) =
      some ⟨[], [], [], 0, "Too short", [⟨1, ['X', 'Y', 'Z'], false⟩]⟩) ∧
    (runSession ⟨'A', ['A', 'B', 'C', 'D', 'E', 'F', 'G'],
        [['A', 'B', 'C', 'D']], []⟩ 1
        [Event.letter 'X', Event.letter 'Y', Event.letter 'Z', Event.submit,
         Event.letter 'X', Event.letter 'Y', Event.letter 'Z', Event.submit]
        (initState 1 []) = none) := by
  decide

/-! ## Claim C4: `record_guess` upsert semantics -/

/-- C4 counterexample: the inline `record_guess` of `nytsb.py` (plain
`INSERT`) does not overwrite on the second call for the same
`(game_id, word)` — it raises (`none`), contradicting the claim that
the second call overwrites the flag. -/
theorem record_guess_insert_second_call_errors :
    (record_guess_insert ['O', 'T', 'T', 'E', 'R'] false 1 []).bind
      (record_guess_insert ['O', 'T', 'T', 'E', 'R'] true 1) = none := by
  decide

/-- C4 (amended): `record_guess` of `db.py` (`REPLACE INTO`) is an
idempotent upsert — after recording `(game_id, w, false)` and then
`(game_id, w, true)` on any table state, exactly one row for
`(game_id, w)` remains and its flag is `true`. -/
theorem record_guess_upsert (db : GuessDB) (game_id : Nat) (w : Word) :
    (record_guess w true game_id (record_guess w false game_id db)).filter
        (rowConflict game_id w) = [⟨game_id, w, true⟩] ∧
    (record_guess w true game_id (record_guess w false game_id db)).countP
        (rowConflict game_id w) = 1 := by
  have key : (record_guess w true game_id
      (record_guess w false game_id db)).filter (rowConflict game_id w) =
      [⟨game_id, w, true⟩] := by
    simp [record_guess, List.filter_append, List.filter_filter, rowConflict]
  refine ⟨key, ?_⟩
  rw [List.countP_eq_length_filter, key]
  rfl

/-! ## Claim C9: `get_or_create_game` idempotence -/

lemma find?_append_of_none {α : Type} {p : α → Bool} {l1 l2 : List α}
    (h : l1.find? p = none) : (l1 ++ l2).find? p = l2.find? p := by
  induction l1 with
  | nil => rfl
  | cons a l ih =>
      rcases hpa : p a with _ | _
      · rw [List.cons_append, List.find?_cons_of_neg _ (by simp [hpa])]
        rw [List.find?_cons_of_neg _ (by simp [hpa])] at h
        exact ih h
      · rw [List.find?_cons_of_pos _ hpa] at h
        cases h

/-- C9: `get_or_create_game` is idempotent — the second call for the
same date returns the same id and leaves the table unchanged, and
after the first call exactly one `game` row exists for the date
(assuming the `UNIQUE(game_date)` constraint held before, i.e. at most
one row per date). -/
theorem get_or_create_game_idempotent (today : Nat) (games : GameDB)
    (huniq : games.countP (fun r => r.2 == today) ≤ 1) :
    (get_or_create_game today (get_or_create_game today games).2).1 =
        (get_or_create_game today games).1 ∧
    (get_or_create_game today (get_or_create_game today games).2).2 =
        (get_or_create_game today games).2 ∧
    ((get_or_create_game today games).2).countP (fun r => r.2 == today) = 1 := by
  rcases hf : games.find? (fun r => r.2 == today) with _ | r
  · have hc0 : games.countP (fun r => r.2 == today) = 0 :=
      List.countP_eq_zero.mpr (List.find?_eq_none.mp hf)
    have e1 : get_or_create_game today games =
        ((games.foldl (fun a r => max a r.1) 0) + 1,
          games ++ [((games.foldl (fun a r => max a r.1) 0) + 1, today)]) := by
      unfold get_or_create_game
      rw [hf]
    have e2 : (games ++
        [((games.foldl (fun a r => max a r.1) 0) + 1, today)]).find?
        (fun r => r.2 == today) =
        some ((games.foldl (fun a r => max a r.1) 0) + 1, today) := by
      rw [find?_append_of_none hf]
      simp [List.find?]
    have e3 : get_or_create_game today
        (games ++ [((games.foldl (fun a r => max a r.1) 0) + 1, today)]) =
        ((games.foldl (fun a r => max a r.1) 0) + 1,
          games ++ [((games.foldl (fun a r => max a r.1) 0) + 1, today)]) := by
      unfold get_or_create_game
      rw [e2]
    rw [e1, e3]
    refine ⟨rfl, rfl, ?_⟩
    rw [List.countP_append, hc0]
    simp
  · have e1 : get_or_create_game today games = (r.1, games) := by
      unfold get_or_create_game
      rw [hf]
    have hpos : 0 < games.countP (fun r => r.2 == today) :=
      List.countP_pos_iff.mpr ⟨r, List.mem_of_find?_eq_some hf,
        by simpa using List.find?_some hf⟩
    rw [e1]
    refine ⟨by rw [e1], by rw [e1], ?_⟩
    show games.countP (fun r => r.2 == today) = 1
    omega

/-- Witness for C9: a fresh table and date 5. -/
theorem get_or_create_game_idempotent_witness :
    (get_or_create_game 5 (get_or_create_game 5 ([] : GameDB)).2).1 =
        (get_or_create_game 5 ([] : GameDB)).1 ∧
    (get_or_create_game 5 (get_or_create_game 5 ([] : GameDB)).2).2 =
        (get_or_create_game 5 ([] : GameDB)).2 ∧
    ((get_or_create_game 5 ([] : GameDB)).2).countP (fun r => r.2 == 5) = 1 :=
  get_or_create_game_idempotent 5 [] (by decide)

/-! ## Claim C8: resume fidelity -/

/-- The persistence/session correspondence: the game's `correct = 1`
rows are exactly the session's found words (in order), and the score
text is `calculate_score` of the found words. -/
def resumeInv (game_id : Nat) (s : SessionState) : Prop :=
  (resumed_game game_id s.db).1 = s.validGuesses ∧
    s.score = calculate_score s.validGuesses

lemma resumed_fst_append_true (game_id : Nat) (db : GuessDB) (w : Word) :
    (resumed_game game_id (db ++ [⟨game_id, w, true⟩])).1 =
      (resumed_game game_id db).1 ++ [w] := by
  simp [resumed_game, List.filter_append]

lemma resumed_fst_append_false (game_id : Nat) (db : GuessDB) (w : Word) :
    (resumed_game game_id (db ++ [⟨game_id, w, false⟩])).1 =
      (resumed_game game_id db).1 := by
  simp [resumed_game, List.filter_append]

lemma submitWord_preserves_resumeInv (bee : SpellingBee) (game_id : Nat)
    {s s' : SessionState} (hinv : resumeInv game_id s)
    (hstep : submitWord bee game_id s = some s') : resumeInv game_id s' := by
  obtain ⟨hdbv, hscore⟩ := hinv
  unfold submitWord at hstep
  set msg := if s.word ∈ bee.pangrams then "Pangram! :tada:" else "Nice!"
    with hmsg
  split_ifs at hstep with h1 h2
  · obtain rfl := Option.some.inj hstep
    exact ⟨hdbv, hscore⟩
  · rcases hdb : record_guess_insert s.word true game_id s.db with _ | db' <;>
      rw [hdb] at hstep
    · exact absurd hstep (by simp)
    · obtain rfl := Option.some.inj hstep
      unfold record_guess_insert at hdb
      split_ifs at hdb
      obtain rfl := Option.some.inj hdb
      constructor
      · show (resumed_game game_id
            (s.db ++ [⟨game_id, s.word, true⟩])).1 = s.validGuesses ++ [s.word]
        rw [resumed_fst_append_true, hdbv]
      · rfl
  · rcases hdb : record_guess_insert s.word false game_id s.db with _ | db' <;>
      rw [hdb] at hstep
    · exact absurd hstep (by simp)
    · obtain rfl := Option.some.inj hstep
      unfold record_guess_insert at hdb
      split_ifs at hdb
      obtain rfl := Option.some.inj hdb
      constructor
      · show (resumed_game game_id
            (s.db ++ [⟨game_id, s.word, false⟩])).1 = s.validGuesses
        rw [resumed_fst_append_false, hdbv]
      · exact hscore

lemma step_preserves_resumeInv (bee : SpellingBee) (game_id : Nat) (e : Event)
    {s s' : SessionState} (hinv : resumeInv game_id s)
    (hstep : step bee game_id e s = some s') : resumeInv game_id s' := by
  obtain ⟨hdbv, hscore⟩ := hinv
  cases e with
  | submit => exact submitWord_preserves_resumeInv bee game_id ⟨hdbv, hscore⟩ hstep
  | shuffle => obtain rfl := Option.some.inj hstep; exact ⟨hdbv, hscore⟩
  | helpToggle => obtain rfl := Option.some.inj hstep; exact ⟨hdbv, hscore⟩
  | backspace => obtain rfl := Option.some.inj hstep; exact ⟨hdbv, hscore⟩
  | letter c => obtain rfl := Option.some.inj hstep; exact ⟨hdbv, hscore⟩
  | other => obtain rfl := Option.some.inj hstep; exact ⟨hdbv, hscore⟩

lemma runSession_preserves_resumeInv (bee : SpellingBee) (game_id : Nat)
    (es : List Event) {s sN : SessionState} (hinv : resumeInv game_id s)
    (hrun : runSession bee game_id es s = some sN) : resumeInv game_id sN := by
  induction es generalizing s with
  | nil =>
      obtain rfl := Option.some.inj hrun
      exact hinv
  | cons e es ih =>
      simp only [runSession] at hrun
      rcases hstep : step bee game_id e s with _ | s1 <;> rw [hstep] at hrun
      · cases hrun
      · exact ih (step_preserves_resumeInv bee game_id e hinv hstep) hrun

/-- C8: resume is faithful — after any session run (started from a
database via `resumed_game` and `calculate_score`, `main` lines
196-244), reloading progress from the final database returns exactly
the accepted words, and re-deriving the score from that returned list
reproduces the session's score. -/
theorem resume_fidelity (bee : SpellingBee) (game_id : Nat) (db0 : GuessDB)
    (es : List Event) (sN : SessionState)
    (hrun : runSession bee game_id es (initState game_id db0) = some sN) :
    (resumed_game game_id sN.db).1 = sN.validGuesses ∧
    calculate_score (resumed_game game_id sN.db).1 = sN.score := by
  have h0 : resumeInv game_id (initState game_id db0) := ⟨rfl, rfl⟩
  have h := runSession_preserves_resumeInv bee game_id es h0 hrun
  refine ⟨h.1, ?_⟩
  rw [h.1]
  exact h.2.symm

/-- Witness for C8: a session that finds the answer ABCD. -/
theorem resume_fidelity_witness :
    (resumed_game 1 (SessionState.mk [['A', 'B', 'C', 'D']] [] [] 1 "Nice!"
        [⟨1, ['A', 'B', 'C', 'D'], true⟩]).db).1 =
      (SessionState.mk [['A', 'B', 'C', 'D']] [] [] 1 "Nice!"
        [⟨1, ['A', 'B', 'C', 'D'], true⟩]).validGuesses ∧
    calculate_score (resumed_game 1
        (SessionState.mk [['A', 'B', 'C', 'D']] [] [] 1 "Nice!"
          [⟨1, ['A', 'B', 'C', 'D'], true⟩]).db).1 =
      (SessionState.mk [['A', 'B', 'C', 'D']] [] [] 1 "Nice!"
        [⟨1, ['A', 'B', 'C', 'D'], true⟩]).score :=
  resume_fidelity
    ⟨'A', ['A', 'B', 'C', 'D', 'E', 'F', 'G'], [['A', 'B', 'C', 'D']], []⟩ 1 []
    [Event.letter 'A', Event.letter 'B', Event.letter 'C', Event.letter 'D',
      Event.submit]
    (SessionState.mk [['A', 'B', 'C', 'D']] [] [] 1 "Nice!"
      [⟨1, ['A', 'B', 'C', 'D'], true⟩])
    (by decide)

/-! ## The rank ladder (`SpellingBee.rank`, `nytsb.py` lines 66-73)

`rank` filters `RANKS` by `score / self.max_score * 100 >= l[1]`
(true division, modelled exactly over the rationals) and takes
Python's `max(..., key=lambda x: x[1])`: the first element attaining
the greatest key, an error (`none`) on an empty list. -/

/-- Python `max(xs, key=lambda x: x[1])`: `none` on the empty list,
otherwise a fold keeping the current maximum and replacing it only on
a strictly greater key. -/
def maxByRank : List (String × Nat) → Option (String × Nat)
  | [] => none
  | x :: xs => some (xs.foldl (fun a b => if a.2 < b.2 then b else a) x)

/-- `SpellingBee.rank`, with `max_score` made an explicit parameter. -/
def rank (score max_score : Nat) : Option (String × Nat) :=
  maxByRank (RANKS.filter fun l =>
    decide ((l.2 : ℚ) ≤ (score : ℚ) / (max_score : ℚ) * 100))

lemma rank_cond_iff (t s m : Nat) (h : 1 ≤ m) :
    ((t : ℚ) ≤ (s : ℚ) / (m : ℚ) * 100) ↔ t * m ≤ 100 * s := by
  have hm : (0 : ℚ) < (m : ℚ) := by exact_mod_cast h
  rw [div_mul_eq_mul_div, le_div_iff₀ hm]
  constructor
  · intro h'
    have h'' : (t : ℚ) * (m : ℚ) ≤ 100 * (s : ℚ) := by linarith
    exact_mod_cast h''
  · intro h'
    have h'' : (t : ℚ) * (m : ℚ) ≤ 100 * (s : ℚ) := by exact_mod_cast h'
    linarith

lemma rank_eq_filter_nat (s m : Nat) (h : 1 ≤ m) :
    rank s m = maxByRank (RANKS.filter fun l =>
      decide (l.2 * m ≤ 100 * s)) := by
  unfold rank
  congr 1
  apply List.filter_congr
  intro x _
  simp only [decide_eq_decide]
  exact rank_cond_iff x.2 s m h


lemma maxByRank_cons (x : String × Nat) (xs : List (String × Nat)) :
    ∃ r, maxByRank (x :: xs) = some r ∧ r ∈ x :: xs ∧
      ∀ l ∈ x :: xs, l.2 ≤ r.2 := by
  induction xs generalizing x with
  | nil =>
      refine ⟨x, rfl, by simp, ?_⟩
      intro l hl
      rw [List.mem_singleton.mp hl]
  | cons y ys ih =>
      obtain ⟨r, hr, hmem, hmax⟩ := ih (if x.2 < y.2 then y else x)
      have heq : maxByRank (x :: y :: ys) =
          maxByRank ((if x.2 < y.2 then y else x) :: ys) := rfl
      refine ⟨r, heq.trans hr, ?_, ?_⟩
      · rcases List.mem_cons.mp hmem with h | h
        · by_cases hxy : x.2 < y.2 <;> simp [hxy] at h <;> simp [h]
        · simp [List.mem_cons, h]
      · intro l hl
        have hhead : ((if x.2 < y.2 then y else x)).2 ≤ r.2 :=
          hmax _ (List.mem_cons_self _ _)
        rcases List.mem_cons.mp hl with h | h
        · have h1 : x.2 ≤ (if x.2 < y.2 then y else x).2 := by
            by_cases hxy : x.2 < y.2 <;> simp [hxy] <;> omega
          rw [h]
          exact le_trans h1 hhead
        · rcases List.mem_cons.mp h with h' | h'
          · have h1 : y.2 ≤ (if x.2 < y.2 then y else x).2 := by
              by_cases hxy : x.2 < y.2 <;> simp [hxy] <;> omega
            rw [h']
            exact le_trans h1 hhead
          · exact hmax _ (List.mem_cons_of_mem _ h')

lemma rank_spec_nat (s m : Nat) (h : 1 ≤ m) :
    ∃ r, rank s m = some r ∧ r ∈ RANKS ∧ r.2 * m ≤ 100 * s ∧
      ∀ l ∈ RANKS, l.2 * m ≤ 100 * s → l.2 ≤ r.2 := by
  rw [rank_eq_filter_nat s m h]
  have h0 : ("Beginner", 0) ∈
      RANKS.filter (fun l => decide (l.2 * m ≤ 100 * s)) := by
    apply List.mem_filter.mpr
    refine ⟨by simp [RANKS], by simp⟩
  rcases hfl : RANKS.filter (fun l => decide (l.2 * m ≤ 100 * s))
    with _ | ⟨x, xs⟩
  · rw [hfl] at h0
    cases h0
  · obtain ⟨r, hr, hmem, hmax⟩ := maxByRank_cons x xs
    have hrf : r ∈ RANKS.filter (fun l => decide (l.2 * m ≤ 100 * s)) := by
      rw [hfl]
      exact hmem
    refine ⟨r, by rw [hfl]; exact hr, (List.mem_filter.mp hrf).1, ?_, ?_⟩
    · simpa using (List.mem_filter.mp hrf).2
    · intro l hl hc
      have hlf : l ∈ RANKS.filter (fun l => decide (l.2 * m ≤ 100 * s)) :=
        List.mem_filter.mpr ⟨hl, by simpa using hc⟩
      rw [hfl] at hlf
      exact hmax l hlf

lemma rank_mono_nat {s s2 m : Nat} (h : 1 ≤ m) (hs : s ≤ s2)
    {r r2 : String × Nat} (h1 : rank s m = some r)
    (h2 : rank s2 m = some r2) : r.2 ≤ r2.2 := by
  obtain ⟨ra, hra, hmem, hcond, _⟩ := rank_spec_nat s m h
  obtain ⟨rb, hrb, _, _, hmaxb⟩ := rank_spec_nat s2 m h
  obtain rfl : r = ra := by
    rw [h1] at hra
    exact Option.some.inj hra
  obtain rfl : r2 = rb := by
    rw [h2] at hrb
    exact Option.some.inj hrb
  exact hmaxb r hmem (by omega)

/-- C5: for any score and positive `max_score`, `rank` returns the
ladder entry with the greatest threshold `t` satisfying
`t <= score / max_score * 100`, and for fixed `max_score` the returned
tier's threshold is monotonically non-decreasing in the score. -/
theorem rank_highest_qualifying (score max_score : Nat)
    (h : 1 ≤ max_score) :
    (∃ r, rank score max_score = some r ∧ r ∈ RANKS ∧
        ((r.2 : ℚ) ≤ (score : ℚ) / (max_score : ℚ) * 100) ∧
        (∀ l ∈ RANKS,
          ((l.2 : ℚ) ≤ (score : ℚ) / (max_score : ℚ) * 100) →
            l.2 ≤ r.2)) ∧
    (∀ (score2 : Nat) (r r2 : String × Nat), score ≤ score2 →
      rank score max_score = some r → rank score2 max_score = some r2 →
      r.2 ≤ r2.2) := by
  constructor
  · obtain ⟨r, hr, hmem, hcond, hmax⟩ := rank_spec_nat score max_score h
    refine ⟨r, hr, hmem, ?_, ?_⟩
    · exact (rank_cond_iff r.2 score max_score h).mpr hcond
    · intro l hl hc
      exact hmax l hl ((rank_cond_iff l.2 score max_score h).mp hc)
  · intro score2 r r2 hs h1 h2
    exact rank_mono_nat h hs h1 h2

/-- Witness for C5: score 0 out of 1. -/
theorem rank_highest_qualifying_witness :
    (∃ r, rank 0 1 = some r ∧ r ∈ RANKS ∧
        ((r.2 : ℚ) ≤ ((0 : Nat) : ℚ) / ((1 : Nat) : ℚ) * 100) ∧
        (∀ l ∈ RANKS,
          ((l.2 : ℚ) ≤ ((0 : Nat) : ℚ) / ((1 : Nat) : ℚ) * 100) →
            l.2 ≤ r.2)) ∧
    (∀ (score2 : Nat) (r r2 : String × Nat), 0 ≤ score2 →
      rank 0 1 = some r → rank score2 1 = some r2 →
      r.2 ≤ r2.2) :=
  rank_highest_qualifying 0 1 (by decide)

/-- C10: `rank` is total on its intended domain — with a positive
`max_score` the Beginner tier (threshold 0) always passes the filter,
so the filtered ladder is non-empty and `rank` returns a value. -/
theorem rank_total (score max_score : Nat) (h : 1 ≤ max_score) :
    ("Beginner", 0) ∈ RANKS.filter (fun l =>
        decide ((l.2 : ℚ) ≤ (score : ℚ) / (max_score : ℚ) * 100)) ∧
    RANKS.filter (fun l =>
        decide ((l.2 : ℚ) ≤ (score : ℚ) / (max_score : ℚ) * 100)) ≠ [] ∧
    (rank score max_score).isSome := by
  have hcond : (((0 : Nat) : ℚ) ≤ (score : ℚ) / (max_score : ℚ) * 100) :=
    (rank_cond_iff 0 score max_score h).mpr (by omega)
  have hmem : ("Beginner", 0) ∈ RANKS.filter (fun l =>
      decide ((l.2 : ℚ) ≤ (score : ℚ) / (max_score : ℚ) * 100)) := by
    apply List.mem_filter.mpr
    refine ⟨by simp [RANKS], by simpa using hcond⟩
  refine ⟨hmem, ?_, ?_⟩
  · intro hnil
    rw [hnil] at hmem
    cases hmem
  · obtain ⟨r, hr, -, -, -⟩ := rank_spec_nat score max_score h
    rw [hr]
    rfl

/-- Witness for C10: score 3 out of 14. -/
theorem rank_total_witness :
    ("Beginner", 0) ∈ RANKS.filter (fun l =>
        decide ((l.2 : ℚ) ≤ ((3 : Nat) : ℚ) / ((14 : Nat) : ℚ) * 100)) ∧
    RANKS.filter (fun l =>
        decide ((l.2 : ℚ) ≤ ((3 : Nat) : ℚ) / ((14 : Nat) : ℚ) * 100)) ≠ [] ∧
    (rank 3 14).isSome :=
  rank_total 3 14 (by decide)
